import Mathlib

/-!
Shallow embedding of the BundleBot core (api/build-bundle.js): the TTL cache,
the price-parsing and provider-row normalization of the RapidAPI / Apify
adapters, the source fallback chain (searchProducts), the per-category
candidate aggregator (getCandidatesFromSpec), and the budget-aware composer
(composeBundle).

Modelling conventions:
- JavaScript numbers are embedded as rationals (ℚ).  NaN (the result of a
  failed price parse) is embedded as the n-one case of Option ℚ; the
  adapter filter isFinite(i.price) becomes an isSome test.  All rationals
  are finite, so the finiteness check inside the composer pick function is
  vacuous in the model.
- Date.now() is passed explicitly as an integer millisecond clock.
- Provider rows carry string-valued fields as Option String (absent and the
  empty string are both JS-falsy); the price fields, which may be numbers or
  strings such as a price of twenty-five dollars written with a dollar sign,
  are a dedicated sum type JField.
- Array.prototype.sort with the comparator on prices is a stable ascending
  sort; it is embedded as List.insertionSort by the price projection.
- The network is abstracted: adapter fetch outcomes are inputs (an Option
  list: none for unconfigured-or-threw, some l for a reply l), and the
  aggregator takes a search oracle.
-/

namespace BundleBot

/-! ### In-memory cache (lines 20-23 of build-bundle.js) -/

/-- One entry of the CACHE map: the Date.now() timestamp at set time and the
stored candidate payload (a list of normalized items). -/
structure CacheEntry (α : Type) where
  ts : ℤ
  data : List α
deriving DecidableEq

/-- The CACHE JS Map, modelled extensionally as a function from keys. -/
def Cache (α : Type) := String → Option (CacheEntry α)

/-- TTL_MS = 45 * 60 * 1000 (45 minutes). -/
def TTL_MS : ℤ := 45 * 60 * 1000

/-- getCache: the entry is returned while now - ts < TTL_MS, else null. -/
def getCache (now : ℤ) (c : Cache α) (key : String) : Option (List α) :=
  match c key with
  | none => none
  | some v => if now - v.ts < TTL_MS then some v.data else none

/-- setCache: unconditionally overwrite the key with a fresh timestamp. -/
def setCache (now : ℤ) (c : Cache α) (key : String) (data : List α) : Cache α :=
  fun k => if k = key then some ⟨now, data⟩ else c k

/-- A cache in which no key was ever set. -/
def emptyCache (α : Type) : Cache α := fun _ => none

/-! ### Price parsing (parsePrice, line 285) -/

/-- A JS field value relevant to price extraction: a string, a number, or
absent (undefined / null). -/
inductive JField where
  | str (s : String)
  | num (q : ℚ)
  | missing
deriving DecidableEq

/-- JS truthiness of a field value: empty string, zero and absent are falsy. -/
def JField.truthy : JField → Bool
  | .str s => s ≠ ""
  | .num q => q ≠ 0
  | .missing => false

/-- Value of a digit run, most significant first. -/
def digitsToNat (ds : List Char) : ℕ :=
  ds.foldl (fun n c => 10 * n + (c.toNat - 48)) 0

/-- Reads the regex match of digits optionally followed by a dot and more
digits, starting at a position known to hold a digit: the integer part is
the maximal digit run; a fractional part is consumed only when a dot is
immediately followed by at least one digit. -/
def readNumber (cs : List Char) : ℚ :=
  match cs.dropWhile Char.isDigit with
  | '.' :: r2 =>
      if (r2.takeWhile Char.isDigit).isEmpty then (digitsToNat (cs.takeWhile Char.isDigit) : ℚ)
      else (digitsToNat (cs.takeWhile Char.isDigit) : ℚ) +
        (digitsToNat (r2.takeWhile Char.isDigit) : ℚ) / ((10 : ℚ) ^ (r2.takeWhile Char.isDigit).length)
  | _ => (digitsToNat (cs.takeWhile Char.isDigit) : ℚ)

/-- Scan for the first digit and read the number there; none when the string
holds no digit (the JS match returns null and parsePrice yields NaN). -/
def matchNumber : List Char → Option ℚ
  | [] => none
  | c :: rest => if c.isDigit then some (readNumber (c :: rest)) else matchNumber rest

/-- parsePrice: a number is returned as is; a string is stripped of commas
and spaces and the first decimal-number match is taken; anything else is
NaN, i.e. none. -/
def parsePrice : JField → Option ℚ
  | .num q => some q
  | .str s => matchNumber (s.data.filter (fun c => c ≠ ',' && c ≠ ' '))
  | .missing => none

/-! ### Field-chain helpers (the JS a || b || ... || default idiom) -/

/-- First truthy string among the fields, else the default. -/
def firstTruthyStr (fs : List (Option String)) (dflt : String) : String :=
  match fs with
  | [] => dflt
  | some s :: rest => if s = "" then firstTruthyStr rest dflt else s
  | none :: rest => firstTruthyStr rest dflt

/-- First truthy price field; the chain terminates in the empty string. -/
def firstTruthyPrice (fs : List JField) : JField :=
  match fs with
  | [] => .str ""
  | f :: rest => if f.truthy then f else firstTruthyPrice rest

/-- buildReason (line 286): join merchant and rating with a bullet, default
to a fixed phrase. -/
def buildReason (rating merchant : String) : String :=
  let parts :=
    (if merchant ≠ "" then [merchant] else []) ++
    (if rating ≠ "" then ["Rating: " ++ rating] else [])
  if parts.isEmpty then "Good value" else String.intercalate " • " parts

/-- capitalize (line 292): uppercase every word-initial word character,
where word characters are ASCII letters, digits and underscore. -/
def isWordChar (c : Char) : Bool :=
  (('a' ≤ c && c ≤ 'z') || ('A' ≤ c && c ≤ 'Z') || ('0' ≤ c && c ≤ '9') || c = '_')

/-- Worker for capitalize: prev records whether the previous character was a
word character (so the current one is not word-initial). -/
def capitalizeGo (prev : Bool) : List Char → List Char
  | [] => []
  | c :: rest =>
      if isWordChar c then
        (if prev then c else c.toUpper) :: capitalizeGo true rest
      else
        c :: capitalizeGo false rest

def capitalize (s : String) : String :=
  String.mk (capitalizeGo false s.data)

/-! ### Normalized items and provider rows -/

/-- An adapter output record (before the aggregator attaches a category). -/
structure Item where
  name : String
  price : ℚ
  link : String
  image : String
  reason : String
  source : String
deriving DecidableEq

/-- The record an adapter row mapper builds before the filter: the price may
be NaN (none) when parsing failed. -/
structure PreItem where
  name : String
  price : Option ℚ
  link : String
  image : String
  reason : String
  source : String
deriving DecidableEq

/-- A heterogeneous provider response row: every field-name variant the
normalizers probe.  String-valued fields are Option String; price fields
may be numbers or strings. -/
structure ProviderRow where
  title : Option String := none
  name : Option String := none
  product_title : Option String := none
  price : JField := .missing
  extracted_price : JField := .missing
  price_str : JField := .missing
  price_string : JField := .missing
  link : Option String := none
  product_link : Option String := none
  url : Option String := none
  thumbnail : Option String := none
  image : Option String := none
  image_link : Option String := none
  rating : Option String := none
  stars : Option String := none
  reviews : Option String := none
  source : Option String := none
  store : Option String := none
  merchant : Option String := none
deriving DecidableEq

/-- The four-field price chain probed by the RapidAPI row mapper. -/
def rapidPriceField (r : ProviderRow) : JField :=
  firstTruthyPrice [r.price, r.extracted_price, r.price_str, r.price_string]

/-- The RapidAPI row mapper (lines 186-194): field-variant probing with the
placeholder defaults of the source. -/
def normalizeRapidRow (r : ProviderRow) : PreItem :=
  let nm := firstTruthyStr [r.title, r.name, r.product_title] "Item"
  let pr := parsePrice (rapidPriceField r)
  let lk := firstTruthyStr [r.link, r.product_link, r.url] "#"
  let im := firstTruthyStr [r.thumbnail, r.image, r.image_link] "https://via.placeholder.com/300"
  let rt := firstTruthyStr [r.rating, r.stars, r.reviews] ""
  let st := firstTruthyStr [r.source, r.store, r.merchant] ""
  ⟨nm, pr, lk, im, buildReason rt st, "rapidapi"⟩

/-- The three-field price chain probed by the Apify row mapper. -/
def apifyPriceField (r : ProviderRow) : JField :=
  firstTruthyPrice [r.price, r.extracted_price, r.price_str]

/-- The Apify dataset row mapper (lines 227-235). -/
def normalizeApifyRow (r : ProviderRow) : PreItem :=
  let nm := firstTruthyStr [r.title, r.name] "Item"
  let pr := parsePrice (apifyPriceField r)
  let lk := firstTruthyStr [r.link, r.url] "#"
  let im := firstTruthyStr [r.image, r.thumbnail] "https://via.placeholder.com/300"
  let rt := firstTruthyStr [r.rating, r.stars] ""
  let st := firstTruthyStr [r.store, r.source] ""
  ⟨nm, pr, lk, im, buildReason rt st, "apify"⟩

/-- The adapter filter isFinite(price) && link && name, fused with the
extraction of the now-known-finite price. -/
def keepItem (p : PreItem) : Option Item :=
  match p.price with
  | some q => if p.link ≠ "" ∧ p.name ≠ "" then some ⟨p.name, q, p.link, p.image, p.reason, p.source⟩ else none
  | none => none

/-- Ascending-price order used by every sort in the source. -/
def itemLe (a b : Item) : Prop := a.price ≤ b.price

instance : DecidableRel itemLe := fun a b => inferInstanceAs (Decidable (a.price ≤ b.price))

instance : IsTotal Item itemLe := ⟨fun a b => le_total a.price b.price⟩

instance : IsTrans Item itemLe := ⟨fun _ _ _ h h2 => le_trans h h2⟩

/-- The pure part of rapidApiGoogleShopping (lines 186-198): map the rows,
filter, sort ascending by price, truncate to limit. -/
def rapidApiGoogleShopping (rows : List ProviderRow) (limit : ℕ) : List Item :=
  (List.insertionSort itemLe ((rows.map normalizeRapidRow).filterMap keepItem)).take limit

/-- The pure part of apifyRetailSearch result handling (lines 227-239). -/
def apifyRetailSearch (rows : List ProviderRow) (limit : ℕ) : List Item :=
  (List.insertionSort itemLe ((rows.map normalizeApifyRow).filterMap keepItem)).take limit

/-! ### The source fallback chain (searchProducts, lines 148-165) -/

/-- The three fixed demo items for a query (lines 160-164). -/
def demoItems (query : String) : List Item :=
  [ ⟨capitalize query ++ " — Option A", 2499/100, "https://example.com/a",
      "https://via.placeholder.com/300", "Good reviews • Low price", "demo"⟩,
    ⟨capitalize query ++ " — Option B", 3250/100, "https://example.com/b",
      "https://via.placeholder.com/300", "Solid quality • Popular pick", "demo"⟩,
    ⟨capitalize query ++ " — Option C", 1875/100, "https://example.com/c",
      "https://via.placeholder.com/300", "Cheapest viable option", "demo"⟩ ]

/-- The demo fallback: slice(0, limit) then sort ascending by price. -/
def demoFallback (query : String) (limit : ℕ) : List Item :=
  List.insertionSort itemLe ((demoItems query).take limit)

/-- searchProducts: the adapter call outcomes are inputs; none models an
unconfigured adapter or one whose call threw (the catch arm), some l a
reply.  A non-empty primary reply wins, then a non-empty secondary reply,
else the demo fallback. -/
def searchProducts (rapid apify : Option (List Item)) (query : String) (limit : ℕ) : List Item :=
  match rapid with
  | some (x :: xs) => x :: xs
  | _ =>
    match apify with
    | some (y :: ys) => y :: ys
    | _ => demoFallback query limit

/-! ### Spec, candidates and the aggregator (getCandidatesFromSpec, lines 127-142) -/

/-- The structured shopping spec consumed by the core. -/
structure Spec where
  title : String
  budget : ℚ
  must_have : List String
  nice_to_have : List String
  max_items : ℤ
deriving DecidableEq

/-- An aggregated candidate: an item tagged with its originating category. -/
structure Candidate where
  name : String
  price : ℚ
  link : String
  image : String
  reason : String
  source : String
  category : String
deriving DecidableEq

/-- The spread that attaches the category at aggregation time. -/
def tagCategory (cat : String) (i : Item) : Candidate :=
  ⟨i.name, i.price, i.link, i.image, i.reason, i.source, cat⟩

/-- De-duplication by first occurrence, the iteration order of a JS Set
built from a list. -/
def dedupFirst : List String → List String
  | [] => []
  | x :: xs => x :: dedupFirst (xs.filter (fun y => y ≠ x))
termination_by l => l.length
decreasing_by
  simp only [List.length_cons]
  exact Nat.lt_succ_of_le (List.length_filter_le _ _)

/-- The working category set: ordered union of must_have then nice_to_have,
de-duplicated by first occurrence, capped to 8. -/
def uniqueCats (spec : Spec) : List String :=
  (dedupFirst (spec.must_have ++ spec.nice_to_have)).take 8

/-- The per-category cache key, built from the lower-cased category and the
fixed per-category limit 3. -/
def cacheKey (cat : String) : String := "q:" ++ cat.toLower ++ "|l:3"

/-- Aggregator loop state: the evolving cache, the per-category result
blocks in loop order, and the trace of categories for which a search was
actually issued (the cache misses). -/
structure AggSt where
  cache : Cache Item
  blocks : List (String × List Item)
  queries : List String

/-- One iteration of the aggregator loop for one category: on cache hit use
the cached list; on miss call the fallback chain (failures already caught
to the empty list by the search oracle) and cache the result only when it
is non-empty. -/
def aggStep (search : String → ℕ → List Item) (now : ℤ) (st : AggSt) (cat : String) : AggSt :=
  match getCache now st.cache (cacheKey cat) with
  | some items => ⟨st.cache, st.blocks ++ [(cat, items)], st.queries⟩
  | none =>
      let items := search cat 3
      let cache2 := if items.isEmpty then st.cache else setCache now st.cache (cacheKey cat) items
      ⟨cache2, st.blocks ++ [(cat, items)], st.queries ++ [cat]⟩

/-- The full aggregator loop over the working category set. -/
def getCandidatesRun (search : String → ℕ → List Item) (now : ℤ) (cache0 : Cache Item)
    (spec : Spec) : AggSt :=
  (uniqueCats spec).foldl (aggStep search now) ⟨cache0, [], []⟩

/-- getCandidatesFromSpec: the flat candidate pool, each block tagged with
its category, in loop order. -/
def getCandidatesFromSpec (search : String → ℕ → List Item) (now : ℤ) (cache0 : Cache Item)
    (spec : Spec) : List Candidate :=
  (getCandidatesRun search now cache0 spec).blocks.flatMap (fun b => b.2.map (tagCategory b.1))

/-! ### The composer (composeBundle, lines 248-282) -/

/-- Composer loop state: the selected list and the running total. -/
structure ComposeSt (α : Type) where
  selected : List α
  total : ℚ

/-- pick (lines 255-262): reject when the item cap is reached or the item
would push the total past the budget, else select.  The isFinite check of
the source is vacuous here because every ℚ is finite. -/
def pickG (budget : ℚ) (maxItems : ℤ) (price : α → ℚ) (st : ComposeSt α) (item : α) :
    ComposeSt α × Bool :=
  if (st.selected.length : ℤ) ≥ maxItems then (st, false)
  else if budget < st.total + price item then (st, false)
  else (⟨st.selected ++ [item], st.total + price item⟩, true)

/-- The inner coverage loop: try the options in order, stop after the first
acceptance. -/
def firstPick (budget : ℚ) (maxItems : ℤ) (price : α → ℚ) :
    List α → ComposeSt α → ComposeSt α
  | [], st => st
  | o :: os, st =>
      let r := pickG budget maxItems price st o
      if r.2 then r.1 else firstPick budget maxItems price os st

/-- The coverage pass: for each must-have category in spec order, the
candidates of that category sorted ascending by price, first acceptance
only. -/
def coveragePass [DecidableEq α] (budget : ℚ) (maxItems : ℤ) (price : α → ℚ)
    (catOf : α → String) (pool : List α) (must : List String) (st0 : ComposeSt α) :
    ComposeSt α :=
  must.foldl
    (fun st cat =>
      firstPick budget maxItems price
        (List.insertionSort (fun a b => price a ≤ price b)
          (pool.filter (fun c => catOf c = cat))) st)
    st0

/-- The fill pass: every remaining candidate, cheapest first, greedily. -/
def fillPass (budget : ℚ) (maxItems : ℤ) (price : α → ℚ) (rem : List α)
    (st : ComposeSt α) : ComposeSt α :=
  rem.foldl (fun st o => (pickG budget maxItems price st o).1) st

/-- The two-phase greedy composer over an arbitrary element type; the
element type is instantiated with Candidate for the value-level bundle and
with position-tagged candidates to model JS object identity. -/
def composeG [DecidableEq α] (price : α → ℚ) (catOf : α → String) (budget : ℚ)
    (maxItems : ℤ) (must : List String) (pool : List α) : ComposeSt α :=
  let st1 := coveragePass budget maxItems price catOf pool must ⟨[], 0⟩
  let rem := List.insertionSort (fun a b => price a ≤ price b)
    (pool.filter (fun c => c ∉ st1.selected))
  fillPass budget maxItems price rem st1

/-- Number(x.toFixed(2)): round to 2 decimal places, ties toward the larger
value, exactly the ECMAScript toFixed rule on exact rationals. -/
def round2 (q : ℚ) : ℚ := (⌊q * 100 + 1/2⌋ : ℚ) / 100

/-- The bundle returned by the composer. -/
structure Bundle where
  title : String
  budget : ℚ
  total : ℚ
  items : List Candidate
deriving DecidableEq

/-- composeBundle (lines 248-282). -/
def composeBundle (spec : Spec) (candidates : List Candidate) : Bundle :=
  let st := composeG Candidate.price Candidate.category spec.budget spec.max_items
    spec.must_have candidates
  ⟨spec.title, spec.budget, round2 st.total, st.selected⟩

/-- The composer on position-tagged candidates: the position models the JS
object reference, which is what selected.includes compares; the aggregator
builds every pool entry as a fresh object, so positions are distinct. -/
def composeIndexed (spec : Spec) (pool : List (ℕ × Candidate)) : ComposeSt (ℕ × Candidate) :=
  composeG (fun p => p.2.price) (fun p => p.2.category) spec.budget spec.max_items
    spec.must_have pool

/-! ## Claim C4: cache TTL semantics -/

/-- Claim C4: getCache immediately after setCache returns the stored value;
once the clock is at least TTL past the set, the entry is absent (the entry
is valid strictly while now - ts < TTL); a key never set is also absent, and
the two absent cases both return the same value none, so the caller cannot
distinguish them. -/
theorem getCache_setCache_ttl (c : Cache Item) (key : String) (v : List Item) (t now : ℤ)
    (h : TTL_MS ≤ now - t) :
    getCache t (setCache t c key v) key = some v ∧
    getCache now (setCache t c key v) key = none ∧
    getCache now (emptyCache Item) key = none := by
  have hk : setCache t c key v key = some ⟨t, v⟩ := by simp [setCache]
  refine ⟨?_, ?_, rfl⟩
  · simp [getCache, hk, TTL_MS]
  · simp only [getCache, hk]
    rw [if_neg (by omega)]

/-- Witness for C4 at a concrete key, value and clock. -/
theorem getCache_setCache_ttl_witness :
    TTL_MS ≤ (2700000 : ℤ) - 0 ∧
    (getCache 0 (setCache 0 (emptyCache Item) "q:bedding|l:3" []) "q:bedding|l:3" = some [] ∧
      getCache 2700000 (setCache 0 (emptyCache Item) "q:bedding|l:3" []) "q:bedding|l:3" = none ∧
      getCache 2700000 (emptyCache Item) "q:bedding|l:3" = none) :=
  ⟨by decide, getCache_setCache_ttl (emptyCache Item) "q:bedding|l:3" [] 0 2700000 (by decide)⟩

/-! ## Claim C7: an empty or failed fetch is not cached -/

/-- Claim C7: in the aggregator's per-category step, when the cache misses
and the fallback-chain call fails or returns the empty list (the search
oracle already maps failures to the empty list, as the catch arm does), no
cache entry is written and the cache state is unchanged by the step. -/
theorem aggStep_empty_fetch_cache_unchanged (search : String → ℕ → List Item) (now : ℤ)
    (st : AggSt) (cat : String)
    (hmiss : getCache now st.cache (cacheKey cat) = none)
    (hempty : search cat 3 = []) :
    (aggStep search now st cat).cache = st.cache := by
  simp [aggStep, hmiss, hempty]

/-- Witness for C7: a concrete miss on an empty cache with a failing
search oracle leaves the cache untouched. -/
theorem aggStep_empty_fetch_cache_unchanged_witness :
    getCache 0 (emptyCache Item) (cacheKey "bedding") = none ∧
    (aggStep (fun _ _ => []) 0 ⟨emptyCache Item, [], []⟩ "bedding").cache = emptyCache Item :=
  ⟨rfl, aggStep_empty_fetch_cache_unchanged (fun _ _ => []) 0 ⟨emptyCache Item, [], []⟩
    "bedding" rfl rfl⟩

/-! ## Claim C6: the aggregator's working category set -/

/-- Each aggregator step appends exactly one block, labelled with its
category. -/
theorem aggStep_blocks_fst (search : String → ℕ → List Item) (now : ℤ) (st : AggSt)
    (cat : String) :
    ((aggStep search now st cat).blocks).map Prod.fst = st.blocks.map Prod.fst ++ [cat] := by
  cases h : getCache now st.cache (cacheKey cat) <;> simp [aggStep, h]

/-- Over any category list, the block labels are the input state's labels
followed by the categories in order. -/
theorem agg_foldl_blocks_fst (search : String → ℕ → List Item) (now : ℤ) :
    ∀ (cats : List String) (st : AggSt),
      ((cats.foldl (aggStep search now) st).blocks).map Prod.fst =
        st.blocks.map Prod.fst ++ cats := by
  intro cats
  induction cats with
  | nil => intro st; simp
  | cons cat cats ih =>
      intro st
      rw [List.foldl_cons, ih, aggStep_blocks_fst, List.append_assoc]
      rfl

/-- The categories actually searched grow by at most the processed
categories, as a sublist. -/
theorem agg_foldl_queries (search : String → ℕ → List Item) (now : ℤ) :
    ∀ (cats : List String) (st : AggSt),
      ∃ l, (cats.foldl (aggStep search now) st).queries = st.queries ++ l ∧
        l.Sublist cats := by
  intro cats
  induction cats with
  | nil => intro st; exact ⟨[], by simp, List.nil_sublist _⟩
  | cons cat cats ih =>
      intro st
      obtain ⟨l, hl, hsub⟩ := ih (aggStep search now st cat)
      cases h : getCache now st.cache (cacheKey cat) with
      | some items =>
          refine ⟨l, ?_, hsub.cons cat⟩
          rw [List.foldl_cons, hl]
          simp [aggStep, h]
      | none =>
          refine ⟨cat :: l, ?_, hsub.cons₂ cat⟩
          rw [List.foldl_cons, hl]
          simp [aggStep, h]

/-- Claim C6: the aggregator's working category set is the ordered union of
must_have then nice_to_have, de-duplicated by first occurrence and capped
to 8; the per-category blocks of the output appear exactly in that order
(so the category order of the flat output is the de-duplicated order), and
at most 8 searches are issued, in particular with 10 unique requested
categories. -/
theorem getCandidatesRun_category_order (search : String → ℕ → List Item) (now : ℤ)
    (cache0 : Cache Item) (spec : Spec) :
    ((getCandidatesRun search now cache0 spec).blocks).map Prod.fst = uniqueCats spec ∧
    (uniqueCats spec).length ≤ 8 ∧
    (getCandidatesRun search now cache0 spec).queries.Sublist (uniqueCats spec) ∧
    (getCandidatesRun search now cache0 spec).queries.length ≤ 8 := by
  have hblocks := agg_foldl_blocks_fst search now (uniqueCats spec) ⟨cache0, [], []⟩
  have hcap : (uniqueCats spec).length ≤ 8 :=
    List.length_take_le 8 (dedupFirst (spec.must_have ++ spec.nice_to_have))
  obtain ⟨l, hq, hsub⟩ := agg_foldl_queries search now (uniqueCats spec) ⟨cache0, [], []⟩
  have hq2 : (getCandidatesRun search now cache0 spec).queries = l := by
    simp only [getCandidatesRun]
    rw [hq]
    exact List.nil_append l
  refine ⟨by simpa [getCandidatesRun] using hblocks, hcap, ?_, ?_⟩
  · rw [hq2]; exact hsub
  · rw [hq2]; exact le_trans hsub.length_le hcap

/-! ## Claim C2: the fallback chain -/

/-- Length of the demo fallback: the fixed three-item list is sliced to
limit before sorting. -/
theorem demoFallback_length (query : String) (limit : ℕ) :
    (demoFallback query limit).length = min limit 3 := by
  rw [demoFallback, (List.perm_insertionSort itemLe _).length_eq, List.length_take]
  rfl

/-- Under failing, empty or unconfigured adapters the chain returns the
demo fallback. -/
theorem searchProducts_eq_demo (rapid apify : Option (List Item)) (query : String) (limit : ℕ)
    (h1 : rapid = none ∨ rapid = some [])
    (h2 : apify = none ∨ apify = some []) :
    searchProducts rapid apify query limit = demoFallback query limit := by
  rcases h1 with h | h <;> rcases h2 with h2 | h2 <;> subst h <;> subst h2 <;> rfl

/-- Claim C2 (amended): when every configured adapter fails or returns
empty (or none is configured), searchProducts returns the synthetic demo
candidates: min limit 3 of them — hence non-empty whenever limit is at
least 1, but fewer than limit when limit exceeds 3 — of length at most
limit, sorted ascending by price, and searchProducts itself never fails
(it is total). -/
theorem searchProducts_fallback (rapid apify : Option (List Item)) (query : String) (limit : ℕ)
    (h1 : rapid = none ∨ rapid = some [])
    (h2 : apify = none ∨ apify = some []) :
    (searchProducts rapid apify query limit).length = min limit 3 ∧
    (searchProducts rapid apify query limit).length ≤ limit ∧
    (1 ≤ limit → searchProducts rapid apify query limit ≠ []) ∧
    (searchProducts rapid apify query limit).Sorted itemLe ∧
    ∀ i ∈ searchProducts rapid apify query limit, i.source = "demo" := by
  rw [searchProducts_eq_demo rapid apify query limit h1 h2]
  have hlen := demoFallback_length query limit
  refine ⟨hlen, ?_, ?_, ?_, ?_⟩
  · rw [hlen]; exact min_le_left _ _
  · intro hlim he
    have : (demoFallback query limit).length = 0 := by rw [he]; rfl
    rw [hlen] at this
    omega
  · exact List.sorted_insertionSort itemLe _
  · intro i hi
    have hi2 : i ∈ (demoItems query).take limit :=
      (List.perm_insertionSort itemLe _).mem_iff.mp hi
    have hi3 : i ∈ demoItems query := (List.take_sublist limit _).mem hi2
    simp only [demoItems, List.mem_cons, List.not_mem_nil, or_false] at hi3
    rcases hi3 with rfl | rfl | rfl <;> rfl

/-- Counterexample to claim C2 as stated: with both adapters absent and
limit 5, the chain returns 3 candidates, not exactly limit. -/
theorem searchProducts_not_exactly_limit :
    (searchProducts none none "bedding" 5).length ≠ 5 := by
  have h : (searchProducts none none "bedding" 5).length = 3 := by
    rw [searchProducts_eq_demo none none "bedding" 5 (Or.inl rfl) (Or.inl rfl),
      demoFallback_length]
    rfl
  rw [h]
  omega

/-- Witness for the amended claim C2 at the aggregator's per-category
limit 3 with both adapters unconfigured. -/
theorem searchProducts_fallback_witness :
    ((none : Option (List Item)) = none ∨ (none : Option (List Item)) = some []) ∧
    ((searchProducts none none "bedding" 3).length = min 3 3 ∧
      (searchProducts none none "bedding" 3).length ≤ 3 ∧
      (1 ≤ 3 → searchProducts none none "bedding" 3 ≠ []) ∧
      (searchProducts none none "bedding" 3).Sorted itemLe ∧
      ∀ i ∈ searchProducts none none "bedding" 3, i.source = "demo") :=
  ⟨Or.inl rfl, searchProducts_fallback none none "bedding" 3 (Or.inl rfl) (Or.inl rfl)⟩

/-! ## Claim C3: adapter normalization -/

/-- The JS field-probing chain with a non-empty default never yields the
empty string. -/
theorem firstTruthyStr_ne_empty (fs : List (Option String)) (d : String) (hd : d ≠ "") :
    firstTruthyStr fs d ≠ "" := by
  induction fs with
  | nil => exact hd
  | cons f rest ih =>
      cases f with
      | none => exact ih
      | some s =>
          show (if s = "" then firstTruthyStr rest d else s) ≠ ""
          by_cases hs : s = ""
          · rw [if_pos hs]; exact ih
          · rw [if_neg hs]; exact hs

/-- Normalized links and names always carry their non-empty placeholder
defaults, so the adapter filter can never drop a row for a missing link or
name. -/
theorem normalizeRapidRow_placeholders (r : ProviderRow) :
    (normalizeRapidRow r).link ≠ "" ∧ (normalizeRapidRow r).name ≠ "" :=
  ⟨firstTruthyStr_ne_empty _ _ (by decide), firstTruthyStr_ne_empty _ _ (by decide)⟩

/-- A mapped row survives the adapter filter exactly when its price parses
to a finite number. -/
theorem keepItem_isSome_iff (r : ProviderRow) :
    (keepItem (normalizeRapidRow r)).isSome ↔ (parsePrice (rapidPriceField r)).isSome := by
  obtain ⟨hlink, hname⟩ := normalizeRapidRow_placeholders r
  have hpr : (normalizeRapidRow r).price = parsePrice (rapidPriceField r) := rfl
  unfold keepItem
  cases hp : parsePrice (rapidPriceField r) with
  | none => rw [hpr, hp]; simp
  | some q => rw [hpr, hp]; simp [hlink, hname]

/-- The string form of twenty-four dollars and ninety-nine cents parses to
the rational 2499/100. -/
theorem parsePrice_dollar_string : parsePrice (.str "$24.99") = some (2499/100 : ℚ) := by
  have h : parsePrice (.str "$24.99") =
      some (((24 : ℕ) : ℚ) + ((99 : ℕ) : ℚ) / (10 : ℚ) ^ 2) := rfl
  rw [h]
  norm_num

/-- Claim C3 (amended): a provider row whose price field is the dollar
string parses to the numeric 24.99, and the adapter output is sorted
ascending by price and truncated to limit; but a row missing a link or a
name is NOT dropped: the mapper substitutes the placeholders, a hash mark
and the word Item, both non-empty, so the filter drops a row exactly when
its price fails to parse. -/
theorem rapid_normalization_amended :
    parsePrice (.str "$24.99") = some (2499/100 : ℚ) ∧
    (∀ r : ProviderRow, (normalizeRapidRow r).link ≠ "" ∧ (normalizeRapidRow r).name ≠ "") ∧
    (∀ r : ProviderRow,
      (keepItem (normalizeRapidRow r)).isSome ↔ (parsePrice (rapidPriceField r)).isSome) ∧
    (∀ (rows : List ProviderRow) (limit : ℕ),
      (rapidApiGoogleShopping rows limit).Sorted itemLe ∧
      (rapidApiGoogleShopping rows limit).length ≤ limit) := by
  refine ⟨parsePrice_dollar_string, normalizeRapidRow_placeholders, keepItem_isSome_iff,
    fun rows limit => ⟨?_, ?_⟩⟩
  · exact List.Pairwise.sublist (List.take_sublist limit _)
      (List.sorted_insertionSort itemLe _)
  · rw [rapidApiGoogleShopping, List.length_take]
    exact min_le_left _ _

/-- A provider row carrying a price but no link field in any variant. -/
def rowMissingLink : ProviderRow := { title := some "Desk Lamp", price := .str "$24.99" }

/-- Counterexample to claim C3 as stated: the row missing every link field
is forwarded with the placeholder link, not dropped. -/
theorem rapid_forwards_missing_link :
    rapidApiGoogleShopping [rowMissingLink] 3 =
      [⟨"Desk Lamp", 2499/100, "#", "https://via.placeholder.com/300", "Good value",
        "rapidapi"⟩] := by
  have h : rapidApiGoogleShopping [rowMissingLink] 3 =
      [⟨"Desk Lamp", ((24 : ℕ) : ℚ) + ((99 : ℕ) : ℚ) / (10 : ℚ) ^ 2, "#",
        "https://via.placeholder.com/300", "Good value", "rapidapi"⟩] := rfl
  rw [h]
  norm_num

/-! ## Claim C8: prices at the adapter boundary -/

/-- A price field that is not a negative number literal. -/
def nonnegJ : JField → Bool
  | .num q => decide (0 ≤ q)
  | _ => true

/-- No price-field variant of the row holds a negative number. -/
def rowPriceOk (r : ProviderRow) : Bool :=
  nonnegJ r.price && nonnegJ r.extracted_price && nonnegJ r.price_str && nonnegJ r.price_string

/-- The number read out of a digit run is non-negative. -/
theorem readNumber_nonneg (cs : List Char) : 0 ≤ readNumber cs := by
  rw [readNumber]
  split
  · split
    · exact Nat.cast_nonneg _
    · exact add_nonneg (Nat.cast_nonneg _)
        (div_nonneg (Nat.cast_nonneg _) (pow_nonneg (by norm_num) _))
  · exact Nat.cast_nonneg _

/-- A successful regex match always yields a non-negative number: the
pattern has no sign. -/
theorem matchNumber_nonneg (cs : List Char) (q : ℚ) (h : matchNumber cs = some q) :
    0 ≤ q := by
  induction cs with
  | nil => exact absurd h (by simp [matchNumber])
  | cons c rest ih =>
      rw [matchNumber] at h
      by_cases hc : c.isDigit = true
      · rw [if_pos hc] at h
        cases h
        exact readNumber_nonneg _
      · rw [if_neg hc] at h
        exact ih h

/-- parsePrice yields a non-negative value unless the field itself is a
negative number. -/
theorem parsePrice_nonneg (f : JField) (hf : nonnegJ f = true) (q : ℚ)
    (h : parsePrice f = some q) : 0 ≤ q := by
  cases f with
  | num p =>
      have hq : p = q := by simpa [parsePrice] using h
      subst hq
      exact of_decide_eq_true hf
  | str s => exact matchNumber_nonneg _ q h
  | missing => exact absurd h (by simp [parsePrice])

/-- The first-truthy chain over fields with no negative number is itself a
field with no negative number (its terminating default is a string). -/
theorem nonnegJ_firstTruthyPrice (fs : List JField) (hf : ∀ f ∈ fs, nonnegJ f = true) :
    nonnegJ (firstTruthyPrice fs) = true := by
  induction fs with
  | nil => rfl
  | cons f rest ih =>
      show nonnegJ (if f.truthy = true then f else firstTruthyPrice rest) = true
      by_cases ht : f.truthy = true
      · rw [if_pos ht]; exact hf f (List.mem_cons_self f rest)
      · rw [if_neg ht]; exact ih (fun g hg => hf g (List.mem_cons_of_mem _ hg))

/-- An item surviving the adapter filter carries exactly the price its
pre-item parsed. -/
theorem keepItem_price (p : PreItem) (i : Item) (h : keepItem p = some i) :
    p.price = some i.price := by
  obtain ⟨nm, pr, lk, im, rs, src⟩ := p
  cases pr with
  | none => exact absurd h (by simp [keepItem])
  | some q =>
      simp only [keepItem] at h
      by_cases hc : lk ≠ "" ∧ nm ≠ ""
      · rw [if_pos hc] at h
        cases h
        rfl
      · rw [if_neg hc] at h
        exact absurd h (by simp)

/-- Price provenance through the whole map-filter-sort-truncate pipeline of
an adapter. -/
theorem pipeline_price_nonneg (norm : ProviderRow → PreItem) (pf : ProviderRow → JField)
    (hnorm : ∀ r, (norm r).price = parsePrice (pf r))
    (rows : List ProviderRow) (limit : ℕ)
    (hok : ∀ r ∈ rows, nonnegJ (pf r) = true) :
    ∀ i ∈ (List.insertionSort itemLe ((rows.map norm).filterMap keepItem)).take limit,
      0 ≤ i.price ∧ ∃ r ∈ rows, parsePrice (pf r) = some i.price := by
  intro i hi
  have hi2 : i ∈ (rows.map norm).filterMap keepItem :=
    (List.perm_insertionSort itemLe _).mem_iff.mp ((List.take_sublist limit _).mem hi)
  obtain ⟨p, hp, hkeep⟩ := List.mem_filterMap.mp hi2
  obtain ⟨r, hr, rfl⟩ := List.mem_map.mp hp
  have hpr : parsePrice (pf r) = some i.price := by
    rw [← hnorm]
    exact keepItem_price _ _ hkeep
  exact ⟨parsePrice_nonneg _ (hok r hr) _ hpr, r, hr, hpr⟩

/-- Claim C8 (amended): every candidate emitted by the RapidAPI or Apify
normalizer carries a finite price that is exactly the successful parse of
some input row's price chain; those prices are non-negative PROVIDED no
row presents a negative number in a price field — a string-encoded price
always parses non-negative, but a row whose price field is already a
negative number is forwarded with its negative price, not discarded. -/
theorem adapter_price_provenance (rows : List ProviderRow) (limit : ℕ)
    (h : rows.all rowPriceOk = true) :
    (∀ i ∈ rapidApiGoogleShopping rows limit, 0 ≤ i.price ∧
      ∃ r ∈ rows, parsePrice (rapidPriceField r) = some i.price) ∧
    (∀ i ∈ apifyRetailSearch rows limit, 0 ≤ i.price ∧
      ∃ r ∈ rows, parsePrice (apifyPriceField r) = some i.price) := by
  have hall : ∀ r ∈ rows, rowPriceOk r = true := by
    intro r hr
    exact List.all_eq_true.mp h r hr
  have hfields : ∀ r ∈ rows, nonnegJ r.price = true ∧ nonnegJ r.extracted_price = true ∧
      nonnegJ r.price_str = true ∧ nonnegJ r.price_string = true := by
    intro r hr
    have hb := hall r hr
    rw [rowPriceOk] at hb
    simp only [Bool.and_eq_true] at hb
    exact ⟨hb.1.1.1, hb.1.1.2, hb.1.2, hb.2⟩
  constructor
  · refine pipeline_price_nonneg normalizeRapidRow rapidPriceField (fun r => rfl) rows limit ?_
    intro r hr
    obtain ⟨h1, h2, h3, h4⟩ := hfields r hr
    refine nonnegJ_firstTruthyPrice _ ?_
    intro f hfm
    simp only [List.mem_cons, List.not_mem_nil, or_false] at hfm
    rcases hfm with rfl | rfl | rfl | rfl
    · exact h1
    · exact h2
    · exact h3
    · exact h4
  · refine pipeline_price_nonneg normalizeApifyRow apifyPriceField (fun r => rfl) rows limit ?_
    intro r hr
    obtain ⟨h1, h2, h3, _⟩ := hfields r hr
    refine nonnegJ_firstTruthyPrice _ ?_
    intro f hfm
    simp only [List.mem_cons, List.not_mem_nil, or_false] at hfm
    rcases hfm with rfl | rfl | rfl
    · exact h1
    · exact h2
    · exact h3

/-- A provider row whose price field is the negative number minus five. -/
def rowNegativePrice : ProviderRow :=
  { title := some "Widget", price := .num (-5), link := some "https://example.com/w" }

/-- Counterexample to claim C8 as stated: the negative numeric price
passes the finiteness filter and is emitted by the adapter. -/
theorem rapid_emits_negative_price :
    ¬ (∀ i ∈ rapidApiGoogleShopping [rowNegativePrice] 3, 0 ≤ i.price) := by
  intro hall
  have hmem : (⟨"Widget", -5, "https://example.com/w", "https://via.placeholder.com/300",
      "Good value", "rapidapi"⟩ : Item) ∈ rapidApiGoogleShopping [rowNegativePrice] 3 := by
    rw [show rapidApiGoogleShopping [rowNegativePrice] 3 =
      [⟨"Widget", -5, "https://example.com/w", "https://via.placeholder.com/300",
        "Good value", "rapidapi"⟩] from rfl]
    exact List.mem_singleton.mpr rfl
  have hneg := hall _ hmem
  norm_num at hneg

/-- A provider row with a dollar-string price, used as the C8 witness. -/
def rowStringPrice : ProviderRow :=
  { title := some "Lamp", price := .str "$12.50", link := some "https://example.com/l" }

/-- Witness for the amended claim C8 at a concrete string-priced row. -/
theorem adapter_price_provenance_witness :
    [rowStringPrice].all rowPriceOk = true ∧
    ((∀ i ∈ rapidApiGoogleShopping [rowStringPrice] 3, 0 ≤ i.price ∧
      ∃ r ∈ [rowStringPrice], parsePrice (rapidPriceField r) = some i.price) ∧
    (∀ i ∈ apifyRetailSearch [rowStringPrice] 3, 0 ≤ i.price ∧
      ∃ r ∈ [rowStringPrice], parsePrice (apifyPriceField r) = some i.price)) :=
  ⟨rfl, adapter_price_provenance [rowStringPrice] 3 rfl⟩

/-! ## Claim C1: composer budget and item-count caps -/

section ComposerCaps

variable {α : Type} (B : ℚ) (M : ℤ) (price : α → ℚ)

/-- pick preserves the two caps: it only accepts an item when the count is
strictly below the cap and the new total stays within the budget. -/
theorem pickG_caps (st : ComposeSt α) (o : α)
    (h : st.total ≤ B ∧ (st.selected.length : ℤ) ≤ M) :
    (pickG B M price st o).1.total ≤ B ∧
    ((pickG B M price st o).1.selected.length : ℤ) ≤ M := by
  unfold pickG
  split
  · exact h
  · split
    · exact h
    · next hM hB =>
        refine ⟨not_lt.mp hB, ?_⟩
        have hlt : (st.selected.length : ℤ) < M := lt_of_not_ge hM
        simp only [List.length_append, List.length_cons, List.length_nil]
        push_cast
        omega

/-- The first-acceptance loop preserves the caps. -/
theorem firstPick_caps (os : List α) (st : ComposeSt α)
    (h : st.total ≤ B ∧ (st.selected.length : ℤ) ≤ M) :
    (firstPick B M price os st).total ≤ B ∧
    ((firstPick B M price os st).selected.length : ℤ) ≤ M := by
  induction os with
  | nil => exact h
  | cons o os ih =>
      simp only [firstPick]
      split
      · exact pickG_caps B M price st o h
      · exact ih

/-- The coverage pass preserves the caps. -/
theorem coveragePass_caps [DecidableEq α] (catOf : α → String) (pool : List α)
    (must : List String) :
    ∀ st : ComposeSt α, st.total ≤ B ∧ (st.selected.length : ℤ) ≤ M →
      (coveragePass B M price catOf pool must st).total ≤ B ∧
      ((coveragePass B M price catOf pool must st).selected.length : ℤ) ≤ M := by
  induction must with
  | nil => exact fun st h => h
  | cons cat rest ih =>
      intro st h
      exact ih _ (firstPick_caps B M price _ st h)

/-- The fill pass preserves the caps. -/
theorem fillPass_caps (rem : List α) :
    ∀ st : ComposeSt α, st.total ≤ B ∧ (st.selected.length : ℤ) ≤ M →
      (fillPass B M price rem st).total ≤ B ∧
      ((fillPass B M price rem st).selected.length : ℤ) ≤ M := by
  induction rem with
  | nil => exact fun st h => h
  | cons o os ih =>
      intro st h
      exact ih _ (pickG_caps B M price st o h)

/-- The composed selection never exceeds a non-negative budget nor a
non-negative item cap. -/
theorem composeG_caps [DecidableEq α] (catOf : α → String) (must : List String)
    (pool : List α) (hB : 0 ≤ B) (hM : 0 ≤ M) :
    (composeG price catOf B M must pool).total ≤ B ∧
    ((composeG price catOf B M must pool).selected.length : ℤ) ≤ M := by
  unfold composeG
  exact fillPass_caps B M price _ _
    (coveragePass_caps B M price catOf pool must ⟨[], 0⟩ ⟨hB, by simpa using hM⟩)

end ComposerCaps

/-- Claim C1 (amended): for every spec with a non-negative budget and a
non-negative item cap, items.length ≤ max_items always; the unrounded
running total of the composed selection never exceeds the budget; the
reported total — the sum rounded to 2 decimals — exceeds the budget by at
most half a cent; and it does not exceed the budget at all whenever the
budget is a whole number of cents (budget * 100 an integer). -/
theorem composeBundle_respects_caps (spec : Spec) (pool : List Candidate)
    (hB : 0 ≤ spec.budget) (hM : 0 ≤ spec.max_items) :
    ((composeBundle spec pool).items.length : ℤ) ≤ spec.max_items ∧
    (composeG Candidate.price Candidate.category spec.budget spec.max_items
      spec.must_have pool).total ≤ spec.budget ∧
    (composeBundle spec pool).total ≤ spec.budget + 1/200 ∧
    ((∃ n : ℤ, spec.budget * 100 = (n : ℚ)) →
      (composeBundle spec pool).total ≤ spec.budget) := by
  obtain ⟨ht, hl⟩ := composeG_caps spec.budget spec.max_items Candidate.price
    Candidate.category spec.must_have pool hB hM
  have htot : (composeBundle spec pool).total = round2 (composeG Candidate.price
      Candidate.category spec.budget spec.max_items spec.must_have pool).total := rfl
  refine ⟨hl, ht, ?_, ?_⟩
  · rw [htot]
    unfold round2
    have hfl : ((⌊(composeG Candidate.price Candidate.category spec.budget spec.max_items
        spec.must_have pool).total * 100 + 1/2⌋ : ℤ) : ℚ) ≤
        (composeG Candidate.price Candidate.category spec.budget spec.max_items
          spec.must_have pool).total * 100 + 1/2 := Int.floor_le _
    rw [div_le_iff₀ (by norm_num : (0:ℚ) < 100)]
    calc ((⌊(composeG Candidate.price Candidate.category spec.budget spec.max_items
          spec.must_have pool).total * 100 + 1/2⌋ : ℤ) : ℚ)
        ≤ (composeG Candidate.price Candidate.category spec.budget spec.max_items
            spec.must_have pool).total * 100 + 1/2 := hfl
      _ ≤ (spec.budget + 1/200) * 100 := by linarith
  · rintro ⟨n, hn⟩
    rw [htot]
    unfold round2
    have hfloor : ⌊(composeG Candidate.price Candidate.category spec.budget spec.max_items
        spec.must_have pool).total * 100 + 1/2⌋ ≤ n := by
      rw [Int.floor_le_iff]
      rw [← hn] at *
      linarith
    rw [div_le_iff₀ (by norm_num : (0:ℚ) < 100)]
    calc ((⌊(composeG Candidate.price Candidate.category spec.budget spec.max_items
          spec.must_have pool).total * 100 + 1/2⌋ : ℤ) : ℚ)
        ≤ (n : ℚ) := by exact_mod_cast hfloor
      _ = spec.budget * 100 := hn.symm

/-- A spec whose budget holds a fraction of a cent (100.0051 dollars, in
the normalized range between 50 and 5000). -/
def cxSpec : Spec := ⟨"Sub-cent budget", 1000051/10000, [], [], 3⟩

/-- A pool with one candidate priced exactly at that budget. -/
def cxPool : List Candidate :=
  [⟨"Gadget", 1000051/10000, "https://example.com/x", "img", "r", "demo", "misc"⟩]

/-- Counterexample to claim C1 as stated: the candidate is accepted (the
running total equals the budget), but rounding the total to 2 decimals
reports 100.01, which exceeds the budget 100.0051. -/
theorem composeBundle_total_can_exceed_budget :
    ¬ ((composeBundle cxSpec cxPool).total ≤ cxSpec.budget) := by
  norm_num [composeBundle, composeG, coveragePass, fillPass, firstPick, pickG, round2,
    cxSpec, cxPool, List.insertionSort, List.orderedInsert]

/-- A spec with a whole-cent budget, for the C1 witness. -/
def cwSpec : Spec := ⟨"Whole-cent budget", 60, ["bedding"], [], 2⟩

/-- A small pool for the C1 witness. -/
def cwPool : List Candidate :=
  [⟨"Sheets", 2499/100, "https://example.com/s", "img", "r", "demo", "bedding"⟩]

/-- Witness for the amended claim C1 at a concrete whole-cent budget. -/
theorem composeBundle_respects_caps_witness :
    (0 ≤ cwSpec.budget ∧ 0 ≤ cwSpec.max_items) ∧
    (((composeBundle cwSpec cwPool).items.length : ℤ) ≤ cwSpec.max_items ∧
      (composeG Candidate.price Candidate.category cwSpec.budget cwSpec.max_items
        cwSpec.must_have cwPool).total ≤ cwSpec.budget ∧
      (composeBundle cwSpec cwPool).total ≤ cwSpec.budget + 1/200 ∧
      ((∃ n : ℤ, cwSpec.budget * 100 = (n : ℚ)) →
        (composeBundle cwSpec cwPool).total ≤ cwSpec.budget)) :=
  ⟨⟨by norm_num [cwSpec], by norm_num [cwSpec]⟩,
    composeBundle_respects_caps cwSpec cwPool (by norm_num [cwSpec]) (by norm_num [cwSpec])⟩

/-! ## Claim C5: the end-to-end composer scenario -/

/-- The scenario spec: budget 60, two-item cap, must-have bedding,
nice-to-have lighting. -/
def c5Spec : Spec := ⟨"Dorm refresh", 60, ["bedding"], ["lighting"], 2⟩

/-- Bedding at 79.99. -/
def cBedHi : Candidate :=
  ⟨"Premium Bedding", 7999/100, "https://example.com/b1", "i1", "r1", "demo", "bedding"⟩

/-- Bedding at 24.99. -/
def cBedLo : Candidate :=
  ⟨"Value Bedding", 2499/100, "https://example.com/b2", "i2", "r2", "demo", "bedding"⟩

/-- Lighting at 24.99. -/
def cLiHi : Candidate :=
  ⟨"Desk Lamp Pro", 2499/100, "https://example.com/l1", "i3", "r3", "demo", "lighting"⟩

/-- Lighting at 13.99. -/
def cLiLo : Candidate :=
  ⟨"Desk Lamp", 1399/100, "https://example.com/l2", "i4", "r4", "demo", "lighting"⟩

/-- The scenario pool in aggregation order. -/
def c5Pool : List Candidate := [cBedHi, cBedLo, cLiHi, cLiLo]

/-- Claim C5: on the scenario inputs the composer returns total 38.98 and
exactly the cheapest bedding followed by the cheapest lighting — the
coverage pass takes bedding at 24.99, the fill pass takes lighting at
13.99, and the two-item cap blocks everything else. -/
theorem composeBundle_scenario :
    (composeBundle c5Spec c5Pool).total = 3898/100 ∧
    (composeBundle c5Spec c5Pool).items = [cBedLo, cLiLo] := by
  norm_num [composeBundle, composeG, coveragePass, fillPass, firstPick, pickG, round2,
    c5Spec, c5Pool, cBedHi, cBedLo, cLiHi, cLiLo, List.insertionSort, List.orderedInsert,
    Candidate.mk.injEq]

/-! ## Claim C9: determinism of the composer -/

/-- Claim C9: the composer is deterministic — two calls on identical spec
and candidate pool return the identical ordered items list and the
identical total.  In the embedding composeBundle is a pure function of its
inputs (the source likewise reads no ambient state and JS sort is
deterministic), so equality of inputs transports to equality of outputs. -/
theorem composeBundle_deterministic (s1 s2 : Spec) (p1 p2 : List Candidate)
    (hs : s1 = s2) (hp : p1 = p2) :
    (composeBundle s1 p1).items = (composeBundle s2 p2).items ∧
    (composeBundle s1 p1).total = (composeBundle s2 p2).total := by
  subst hs
  subst hp
  exact ⟨rfl, rfl⟩

/-- A concrete spec for the determinism witness. -/
def c9Spec : Spec := ⟨"Repeat run", 500, ["storage"], [], 10⟩

/-- A concrete pool for the determinism witness. -/
def c9Pool : List Candidate :=
  [⟨"Bin", 1299/100, "https://example.com/bin", "i", "r", "demo", "storage"⟩]

/-- Witness for C9 at a concrete repeated input. -/
theorem composeBundle_deterministic_witness :
    c9Spec = c9Spec ∧
    ((composeBundle c9Spec c9Pool).items = (composeBundle c9Spec c9Pool).items ∧
      (composeBundle c9Spec c9Pool).total = (composeBundle c9Spec c9Pool).total) :=
  ⟨rfl, composeBundle_deterministic c9Spec c9Spec c9Pool c9Pool rfl rfl⟩

/-! ## Claim C10: no pool entry is selected twice -/

section ComposerNodup

variable {α : Type} (B : ℚ) (M : ℤ) (price : α → ℚ) (catOf : α → String)

/-- pick either leaves the state unchanged or appends exactly the offered
item. -/
theorem pickG_fst_cases (st : ComposeSt α) (o : α) :
    (pickG B M price st o).1 = st ∨
    (pickG B M price st o).1.selected = st.selected ++ [o] := by
  unfold pickG
  split
  · exact Or.inl rfl
  · split
    · exact Or.inl rfl
    · exact Or.inr rfl

/-- The first-acceptance loop either leaves the state unchanged or appends
exactly one of the offered options. -/
theorem firstPick_selected_cases (os : List α) (st : ComposeSt α) :
    firstPick B M price os st = st ∨
    ∃ o ∈ os, (firstPick B M price os st).selected = st.selected ++ [o] := by
  induction os with
  | nil => exact Or.inl rfl
  | cons o os ih =>
      simp only [firstPick]
      split
      · rcases pickG_fst_cases B M price st o with h | h
        · exact Or.inl h
        · exact Or.inr ⟨o, List.mem_cons_self o os, h⟩
      · rcases ih with h | ⟨o2, hm, h⟩
        · exact Or.inl h
        · exact Or.inr ⟨o2, List.mem_cons_of_mem o hm, h⟩

/-- Through the coverage pass over pairwise-distinct must-have categories,
the selection stays duplicate-free — each loop iteration adds at most one
item, of that iteration's category, and earlier picks are of earlier
categories — and every pick comes from the pool. -/
theorem coveragePass_nodup_subset [DecidableEq α] (pool : List α) :
    ∀ (must : List String) (st : ComposeSt α), must.Nodup → st.selected.Nodup →
      (∀ x ∈ st.selected, catOf x ∉ must) →
      (coveragePass B M price catOf pool must st).selected.Nodup ∧
      ∀ x ∈ (coveragePass B M price catOf pool must st).selected,
        x ∈ pool ∨ x ∈ st.selected := by
  intro must
  induction must with
  | nil => exact fun st _ h2 _ => ⟨h2, fun x hx => Or.inr hx⟩
  | cons cat rest ih =>
      intro st hnd hsel hcats
      have hnd2 : rest.Nodup := hnd.of_cons
      have hcatrest : cat ∉ rest := (List.nodup_cons.mp hnd).1
      simp only [coveragePass, List.foldl_cons]
      set st2 := firstPick B M price
        (List.insertionSort (fun a b => price a ≤ price b)
          (pool.filter (fun c => catOf c = cat))) st with hst2
      rcases firstPick_selected_cases B M price
        (List.insertionSort (fun a b => price a ≤ price b)
          (pool.filter (fun c => catOf c = cat))) st with heq | ⟨o, hom, heq⟩
      · rw [← hst2] at heq
        rw [heq]
        obtain ⟨ha, hb⟩ := ih st hnd2 hsel
          (fun x hx => fun hr => hcats x hx (List.mem_cons_of_mem cat hr))
        exact ⟨ha, hb⟩
      · rw [← hst2] at heq
        have homem : o ∈ pool ∧ catOf o = cat := by
          have h2 : o ∈ pool.filter (fun c => catOf c = cat) :=
            (List.perm_insertionSort _ _).mem_iff.mp hom
          obtain ⟨hp, hd⟩ := List.mem_filter.mp h2
          exact ⟨hp, of_decide_eq_true hd⟩
        have honotin : o ∉ st.selected := by
          intro hin
          exact hcats o hin (homem.2 ▸ List.mem_cons_self cat rest)
        have hsel2 : st2.selected.Nodup := by
          rw [heq]
          rw [List.nodup_append]
          exact ⟨hsel, List.nodup_singleton o, by
            intro a ha hb
            rw [List.mem_singleton] at hb
            exact honotin (hb ▸ ha)⟩
        have hcats2 : ∀ x ∈ st2.selected, catOf x ∉ rest := by
          rw [heq]
          intro x hx
          rcases List.mem_append.mp hx with hx1 | hx2
          · exact fun hr => hcats x hx1 (List.mem_cons_of_mem cat hr)
          · rw [List.mem_singleton] at hx2
            subst hx2
            rw [homem.2]
            exact hcatrest
        obtain ⟨ha, hb⟩ := ih st2 hnd2 hsel2 hcats2
        refine ⟨ha, fun x hx => ?_⟩
        rcases hb x hx with hx1 | hx2
        · exact Or.inl hx1
        · rw [heq] at hx2
          rcases List.mem_append.mp hx2 with hx3 | hx4
          · exact Or.inr hx3
          · rw [List.mem_singleton] at hx4
            exact Or.inl (hx4 ▸ homem.1)

/-- Through the fill pass over a duplicate-free remainder disjoint from the
current selection, the selection stays duplicate-free, and every new pick
comes from the remainder. -/
theorem fillPass_nodup_subset :
    ∀ (rem : List α) (st : ComposeSt α), st.selected.Nodup → rem.Nodup →
      (∀ x ∈ rem, x ∉ st.selected) →
      (fillPass B M price rem st).selected.Nodup ∧
      ∀ x ∈ (fillPass B M price rem st).selected, x ∈ rem ∨ x ∈ st.selected := by
  intro rem
  induction rem with
  | nil => exact fun st h _ _ => ⟨h, fun x hx => Or.inr hx⟩
  | cons o os ih =>
      intro st hsel hrem hdisj
      have hrem2 : os.Nodup := hrem.of_cons
      have honot : o ∉ os := (List.nodup_cons.mp hrem).1
      simp only [fillPass, List.foldl_cons]
      rcases pickG_fst_cases B M price st o with heq | heq
      · rw [heq]
        obtain ⟨ha, hb⟩ := ih st hsel hrem2
          (fun x hx => hdisj x (List.mem_cons_of_mem o hx))
        refine ⟨ha, fun x hx => ?_⟩
        rcases hb x hx with h1 | h2
        · exact Or.inl (List.mem_cons_of_mem o h1)
        · exact Or.inr h2
      · have hsel2 : ((pickG B M price st o).1.selected).Nodup := by
          rw [heq, List.nodup_append]
          exact ⟨hsel, List.nodup_singleton o, by
            intro a ha hb
            rw [List.mem_singleton] at hb
            exact hdisj o (List.mem_cons_self o os) (hb ▸ ha)⟩
        have hdisj2 : ∀ x ∈ os, x ∉ (pickG B M price st o).1.selected := by
          intro x hx hin
          rw [heq] at hin
          rcases List.mem_append.mp hin with h1 | h2
          · exact hdisj x (List.mem_cons_of_mem o hx) h1
          · rw [List.mem_singleton] at h2
            exact honot (h2 ▸ hx)
        obtain ⟨ha, hb⟩ := ih _ hsel2 hrem2 hdisj2
        refine ⟨ha, fun x hx => ?_⟩
        rcases hb x hx with h1 | h2
        · exact Or.inl (List.mem_cons_of_mem o h1)
        · rw [heq] at h2
          rcases List.mem_append.mp h2 with h3 | h4
          · exact Or.inr h3
          · rw [List.mem_singleton] at h4
            exact Or.inl (h4 ▸ List.mem_cons_self o os)

/-- The composed selection holds no duplicates and draws only from the
pool, given pairwise-distinct must-have categories and a duplicate-free
pool. -/
theorem composeG_selected_nodup [DecidableEq α] (must : List String) (pool : List α)
    (h1 : must.Nodup) (h2 : pool.Nodup) :
    (composeG price catOf B M must pool).selected.Nodup ∧
    ∀ x ∈ (composeG price catOf B M must pool).selected, x ∈ pool := by
  obtain ⟨hn1, hsub1⟩ := coveragePass_nodup_subset B M price catOf pool must ⟨[], 0⟩ h1
    (by simp) (by simp)
  have hsub1p : ∀ x ∈ (coveragePass B M price catOf pool must ⟨[], 0⟩).selected, x ∈ pool := by
    intro x hx
    rcases hsub1 x hx with h | h
    · exact h
    · exact absurd h (List.not_mem_nil x)
  have hfil : (pool.filter
      (fun c => c ∉ (coveragePass B M price catOf pool must ⟨[], 0⟩).selected)).Nodup :=
    h2.filter _
  have hremnd : (List.insertionSort (fun a b => price a ≤ price b)
      (pool.filter
        (fun c => c ∉ (coveragePass B M price catOf pool must ⟨[], 0⟩).selected))).Nodup :=
    (List.perm_insertionSort _ _).nodup_iff.mpr hfil
  have hdisj : ∀ x ∈ List.insertionSort (fun a b => price a ≤ price b)
      (pool.filter
        (fun c => c ∉ (coveragePass B M price catOf pool must ⟨[], 0⟩).selected)),
      x ∉ (coveragePass B M price catOf pool must ⟨[], 0⟩).selected := by
    intro x hx
    have h2x := (List.perm_insertionSort _ _).mem_iff.mp hx
    exact of_decide_eq_true (List.mem_filter.mp h2x).2
  obtain ⟨ha, hb⟩ := fillPass_nodup_subset B M price _
    (coveragePass B M price catOf pool must ⟨[], 0⟩) hn1 hremnd hdisj
  refine ⟨ha, fun x hx => ?_⟩
  rcases hb x hx with h | h
  · exact List.filter_subset' pool ((List.perm_insertionSort _ _).mem_iff.mp h)
  · exact hsub1p x h

end ComposerNodup

/-- Claim C10: when must_have holds no duplicate category and the pool
entries are tagged with pairwise-distinct positions (modelling the
pairwise-distinct JS object references the aggregator creates, which is
what selected.includes compares), the composed bundle selects each pool
entry at most once: the positions of the selected entries are pairwise
distinct.  The coverage pass cannot reuse an entry because distinct
categories filter disjoint option sets and each category stops at its
first acceptance; the fill pass cannot because it filters out everything
already selected and traverses the remainder once. -/
theorem composeIndexed_each_entry_once (spec : Spec) (pool : List (ℕ × Candidate))
    (h1 : spec.must_have.Nodup) (h2 : (pool.map Prod.fst).Nodup) :
    ((composeIndexed spec pool).selected.map Prod.fst).Nodup := by
  have hpn : pool.Nodup := h2.of_map Prod.fst
  obtain ⟨hnd, hsub⟩ := composeG_selected_nodup spec.budget spec.max_items
    (fun p => p.2.price) (fun p => p.2.category) spec.must_have pool h1 hpn
  refine List.Nodup.map_on ?_ hnd
  intro x hx y hy hxy
  exact List.inj_on_of_nodup_map h2 (hsub x hx) (hsub y hy) hxy

/-- Witness pool for C10: two distinct positions. -/
def c10Pool : List (ℕ × Candidate) :=
  [(0, ⟨"Sheets", 2499/100, "https://example.com/s", "i", "r", "demo", "bedding"⟩),
   (1, ⟨"Lamp", 1399/100, "https://example.com/l", "i", "r", "demo", "lighting"⟩)]

/-- Witness for C10 at a concrete spec and position-tagged pool. -/
theorem composeIndexed_each_entry_once_witness :
    (cwSpec.must_have.Nodup ∧ (c10Pool.map Prod.fst).Nodup) ∧
    ((composeIndexed cwSpec c10Pool).selected.map Prod.fst).Nodup :=
  ⟨⟨by simp [cwSpec], by simp [c10Pool]⟩,
    composeIndexed_each_entry_once cwSpec c10Pool (by simp [cwSpec]) (by simp [c10Pool])⟩

end BundleBot
